import Mathlib

/-!
Verification of the marty Matrix TUI client (src/config.rs, src/storage.rs,
src/matrix.rs, src/main.rs).

The development shallowly embeds the Rust source into Lean.  Byte strings are
`List Nat` with every element `< 256`; strings are Lean `String` or `List Char`;
fallible operations return `Option`.  External library primitives
(AES-256-GCM from the aes-gcm crate, PBKDF2 from the pbkdf2 crate, the
chrono-based timestamp formatters, matrix-sdk parsing) are parameters of the
embedding, constrained only by their documented contracts, which appear as
explicit hypotheses of the theorems.  Everything the repository itself
implements (the base64 alphabet handling of the envelope, envelope assembly
and parsing, log dedup, backfill pagination, the UI state machine) is
translated directly from the source.
-/

/-! ## Base64 (the base64 crate's STANDARD engine, as used by storage.rs)

storage.rs encodes salt, nonce and ciphertext of an embedded `EncryptedValue`
with `base64::engine::general_purpose::STANDARD` (padded, canonical). -/

/-- The standard base64 alphabet, A-Z a-z 0-9 + /. -/
def b64Alphabet : List Char :=
  ['A', 'B', 'C', 'D', 'E', 'F', 'G', 'H', 'I', 'J', 'K', 'L', 'M',
   'N', 'O', 'P', 'Q', 'R', 'S', 'T', 'U', 'V', 'W', 'X', 'Y', 'Z',
   'a', 'b', 'c', 'd', 'e', 'f', 'g', 'h', 'i', 'j', 'k', 'l', 'm',
   'n', 'o', 'p', 'q', 'r', 's', 't', 'u', 'v', 'w', 'x', 'y', 'z',
   '0', '1', '2', '3', '4', '5', '6', '7', '8', '9', '+', '/']

/-- Character for a 6-bit value. -/
def sextetChar (n : Nat) : Char := b64Alphabet.getD n 'A'

/-- 6-bit value of an alphabet character, `none` for characters outside the
alphabet. -/
def sextetOf (c : Char) : Option Nat := b64Alphabet.findIdx? (fun x => x = c)

/-- Base64-encode a byte sequence (standard alphabet, with `=` padding). -/
def b64encodeList : List Nat → List Char
  | [] => []
  | [b1] =>
      [sextetChar (b1 / 4), sextetChar (b1 % 4 * 16), '=', '=']
  | [b1, b2] =>
      [sextetChar (b1 / 4), sextetChar (b1 % 4 * 16 + b2 / 16),
       sextetChar (b2 % 16 * 4), '=']
  | b1 :: b2 :: b3 :: rest =>
      sextetChar (b1 / 4) :: sextetChar (b1 % 4 * 16 + b2 / 16) ::
      sextetChar (b2 % 16 * 4 + b3 / 64) :: sextetChar (b3 % 64) ::
      b64encodeList rest

/-- Base64-decode (canonical padding required, invalid input rejected). -/
def b64decodeList : List Char → Option (List Nat)
  | [] => some []
  | c1 :: c2 :: c3 :: c4 :: rest =>
      match sextetOf c1, sextetOf c2 with
      | some s1, some s2 =>
          if c3 = '=' then
            if c4 = '=' ∧ rest = [] ∧ s2 % 16 = 0 then
              some [s1 * 4 + s2 / 16]
            else none
          else
            match sextetOf c3 with
            | some s3 =>
                if c4 = '=' then
                  if rest = [] ∧ s3 % 4 = 0 then
                    some [s1 * 4 + s2 / 16, s2 % 16 * 16 + s3 / 4]
                  else none
                else
                  match sextetOf c4 with
                  | some s4 =>
                      (b64decodeList rest).map
                        (fun tail =>
                          (s1 * 4 + s2 / 16) :: (s2 % 16 * 16 + s3 / 4) ::
                          ((s3 % 4 * 64 + s4) :: tail))
                  | none => none
            | none => none
      | _, _ => none
  | _ => none

/-! ## Crypto primitives (storage.rs lines 90-120)

`encrypt_bytes`/`decrypt_bytes` derive a 32-byte key with
PBKDF2-HMAC-SHA256 (100 000 iterations) and run AES-256-GCM.  Both the KDF
and the AEAD live in external crates; the embedding takes them as
parameters.  `AeadCorrect` is the AEAD round-trip contract, `AeadBytes`
states that ciphertexts are byte sequences. -/

/-- External AEAD cipher (aes-gcm crate): key → nonce → plaintext →
ciphertext, and the fallible inverse. -/
structure AeadScheme where
  enc : List Nat → List Nat → List Nat → List Nat
  dec : List Nat → List Nat → List Nat → Option (List Nat)

/-- The AEAD round-trip contract of AES-256-GCM: decryption with the same key
and nonce recovers any byte-string plaintext. -/
def AeadCorrect (A : AeadScheme) : Prop :=
  ∀ k n m, (∀ b ∈ m, b < 256) → A.dec k n (A.enc k n m) = some m

/-- Ciphertexts produced by the AEAD are byte sequences. -/
def AeadBytes (A : AeadScheme) : Prop :=
  ∀ k n m, (∀ b ∈ m, b < 256) → ∀ b ∈ A.enc k n m, b < 256

/-- External key-derivation function (pbkdf2 crate):
passphrase bytes → salt → derived key. -/
def Kdf : Type := List Nat → List Nat → List Nat

/-- storage.rs `encrypt_bytes`: derive the key from passphrase and salt, then
encrypt under the given nonce. -/
def encrypt_bytes (A : AeadScheme) (kdf : Kdf)
    (pass salt nonce plaintext : List Nat) : List Nat :=
  A.enc (kdf pass salt) nonce plaintext

/-- storage.rs `decrypt_bytes`: derive the key the same way and decrypt. -/
def decrypt_bytes (A : AeadScheme) (kdf : Kdf)
    (pass salt nonce ciphertext : List Nat) : Option (List Nat) :=
  A.dec (kdf pass salt) nonce ciphertext

/-! ## Envelope forms (storage.rs lines 17-88)

Binary file form: `salt(16) ++ nonce(12) ++ ciphertext`; the salt and nonce
are drawn from the OS RNG, so they appear as arguments of fixed length here.
File I/O is modelled by value passing: `write_encrypted` returns the file
content and `read_encrypted` receives it. -/

/-- storage.rs `write_encrypted`: the bytes written to the log file. -/
def write_encrypted (A : AeadScheme) (kdf : Kdf)
    (salt nonce pass plaintext : List Nat) : List Nat :=
  salt ++ nonce ++ encrypt_bytes A kdf pass salt nonce plaintext

/-- storage.rs `read_encrypted`: reject short files, split off the 16-byte
salt and 12-byte nonce, decrypt the remainder. -/
def read_encrypted (A : AeadScheme) (kdf : Kdf)
    (data pass : List Nat) : Option (List Nat) :=
  if data.length < 16 + 12 then none
  else
    decrypt_bytes A kdf pass (data.take 16) ((data.drop 16).take 12)
      ((data.drop 16).drop 12)

/-- storage.rs `EncryptedValue`: the embedded text form of the envelope,
three base64 fields. -/
structure EncryptedValue where
  salt : String
  nonce : String
  data : String
deriving DecidableEq

/-- storage.rs `encrypt_value`: fresh salt and nonce (arguments here),
encrypt, base64-encode the three components. -/
def encrypt_value (A : AeadScheme) (kdf : Kdf)
    (salt nonce pass plaintext : List Nat) : EncryptedValue :=
  { salt := String.mk (b64encodeList salt)
    nonce := String.mk (b64encodeList nonce)
    data := String.mk (b64encodeList (encrypt_bytes A kdf pass salt nonce plaintext)) }

/-- storage.rs `decrypt_value`: base64-decode the three fields, enforce the
16/12-byte salt/nonce invariant, decrypt. -/
def decrypt_value (A : AeadScheme) (kdf : Kdf)
    (pass : List Nat) (v : EncryptedValue) : Option (List Nat) :=
  match b64decodeList v.salt.toList with
  | none => none
  | some salt =>
    match b64decodeList v.nonce.toList with
    | none => none
    | some nonce =>
      match b64decodeList v.data.toList with
      | none => none
      | some data =>
        if salt.length ≠ 16 ∨ nonce.length ≠ 12 then none
        else decrypt_bytes A kdf pass salt nonce data

/-- Trivial AEAD instance used to witness the theorems that are parameterized
by the external cipher. -/
def idAead : AeadScheme :=
  { enc := fun _ _ m => m, dec := fun _ _ c => some c }

/-- Trivial KDF instance for witnesses. -/
def constKdf : Kdf := fun _ _ => []

/-! ## Message log store (storage.rs lines 122-205)

The log file holds a single JSON array of `StoredMessage` records, encrypted
as a whole.  `append_message` is modelled on the decrypted record array (the
claim about it is stated up to content equality of the decrypted log; the
encryption layer is covered by the round-trip theorem above). -/

/-- storage.rs `StoredMessage` (lines 132-139): exactly four fields. -/
structure StoredMessage where
  timestamp : Int
  sender : String
  body : String
  event_id : Option String
deriving DecidableEq

/-- storage.rs `append_message` (lines 141-164) on the decrypted record
array: when the new record has an event id that some existing record already
carries, the array is returned unchanged; otherwise the record is pushed. -/
def append_message (records : List StoredMessage) (record : StoredMessage) :
    List StoredMessage :=
  match record.event_id with
  | some eid =>
      if records.any (fun msg => msg.event_id = some eid) then records
      else records ++ [record]
  | none => records ++ [record]

/-- storage.rs `latest_room_timestamp` (lines 192-205) on the decrypted
record array: the maximum timestamp, `none` for an absent or empty log. -/
def latest_room_timestamp (records : List StoredMessage) : Option Int :=
  (records.map (fun msg => msg.timestamp)).max?

/-- storage.rs `room_log_path` (lines 122-124): directory key of a room id,
every `:` replaced by `_`. -/
def roomDirKey (roomId : List Char) : List Char :=
  roomId.map (fun c => if c = ':' then '_' else c)

/-- storage.rs `room_log_path`: path components of a room log, the base
directory followed by the room key and the log file name. -/
def room_log_path (base : List (List Char)) (roomId : List Char) :
    List (List Char) :=
  base ++ [roomDirKey roomId, "messages.jsonl.enc".toList]

/-- main.rs `run_app` startup loader (line 932): the room id recovered from a
directory key, every `_` replaced by `:`. -/
def roomKeyToId (roomKey : List Char) : List Char :=
  roomKey.map (fun c => if c = '_' then ':' else c)

/-! ## Attachment filenames (matrix.rs lines 865-873) -/

/-- Rust `char::is_whitespace`: the Unicode White_Space property. -/
def isRustWhitespace (c : Char) : Bool :=
  (0x09 ≤ c.toNat ∧ c.toNat ≤ 0x0D) ∨ c.toNat = 0x20 ∨ c.toNat = 0x85 ∨
  c.toNat = 0xA0 ∨ c.toNat = 0x1680 ∨ (0x2000 ≤ c.toNat ∧ c.toNat ≤ 0x200A) ∨
  c.toNat = 0x2028 ∨ c.toNat = 0x2029 ∨ c.toNat = 0x202F ∨
  c.toNat = 0x205F ∨ c.toNat = 0x3000

/-- matrix.rs `sanitize_filename`, first step: `name.replace(['/', '\\'], "_")`. -/
def replaceSlashes (name : List Char) : List Char :=
  name.map (fun c => if c = '/' ∨ c = '\\' then '_' else c)

/-- Rust `str::trim`: strip leading and trailing whitespace. -/
def trimChars (l : List Char) : List Char :=
  ((l.dropWhile isRustWhitespace).reverse.dropWhile isRustWhitespace).reverse

/-- matrix.rs `sanitize_filename`: replace slashes, trim, fall back to the
literal `"attachment"` when the result is empty. -/
def sanitize_filename (name : List Char) : List Char :=
  let trimmed := trimChars (replaceSlashes name)
  if trimmed = [] then "attachment".toList else trimmed

/-! ## Configuration store (config.rs)

`AccountConfig` is parameterized over the opaque matrix-sdk `MatrixSession`
type.  Serde attributes in the source: `session_encrypted` is skipped when
absent, `session` is never serialized. -/

/-- config.rs `AccountConfig` (lines 16-26). -/
structure AccountConfig (σ : Type) where
  homeserver : String
  username : String
  user_id : Option String
  display_name : Option String
  session_encrypted : Option EncryptedValue
  session : Option σ

/-- config.rs `AppConfig` (lines 10-14). -/
structure AppConfig (σ : Type) where
  accounts : List (AccountConfig σ)
  active : Option Nat

/-- config.rs `decrypt_sessions` (lines 76-95), with the in-place mutation of
the account list made explicit: the result is the account list as it stands
when the function returns, together with a success flag (`false` is the
`SessionDecrypt` error path).  Accounts are processed in order; an account
with a cleartext session or without an envelope is passed over; an account
whose envelope decrypts and parses gets its `session` field populated; the
first decode or parse failure returns immediately, leaving that account and
everything after it untouched.  `parse` models `serde_json::from_slice` on
the decrypted session record. -/
def decrypt_sessions {σ : Type} (A : AeadScheme) (kdf : Kdf)
    (parse : List Nat → Option σ) (pass : List Nat) :
    List (AccountConfig σ) → List (AccountConfig σ) × Bool
  | [] => ([], true)
  | a :: rest =>
    if a.session.isSome then
      let r := decrypt_sessions A kdf parse pass rest
      (a :: r.1, r.2)
    else
      match a.session_encrypted with
      | none =>
        let r := decrypt_sessions A kdf parse pass rest
        (a :: r.1, r.2)
      | some ev =>
        match decrypt_value A kdf pass ev with
        | none => (a :: rest, false)
        | some raw =>
          match parse raw with
          | none => (a :: rest, false)
          | some s =>
            let r := decrypt_sessions A kdf parse pass rest
            ({ a with session := some s } :: r.1, r.2)

/-- A TOML value as far as this configuration document needs: a string, an
integer, or a flat table of strings (the `session_encrypted` envelope). -/
inductive TomlField
  | str (s : String)
  | table (fields : List (String × String))
deriving DecidableEq

/-- The serde-derive serialization of one account record, following the
attributes on config.rs lines 16-26: fields in declaration order; `user_id`
and `display_name` emitted when present; `session_encrypted` skipped when
`None` (`skip_serializing_if`); `session` never emitted
(`skip_serializing`). -/
def serialize_account {σ : Type} (a : AccountConfig σ) :
    List (String × TomlField) :=
  [("homeserver", TomlField.str a.homeserver),
   ("username", TomlField.str a.username)]
  ++ (match a.user_id with
      | some u => [("user_id", TomlField.str u)]
      | none => [])
  ++ (match a.display_name with
      | some d => [("display_name", TomlField.str d)]
      | none => [])
  ++ (match a.session_encrypted with
      | some ev =>
        [("session_encrypted",
          TomlField.table
            [("salt", ev.salt), ("nonce", ev.nonce), ("data", ev.data)])]
      | none => [])

/-- config.rs `save_config` (lines 70-74): the serialized document, as the
optional `active` index plus one table per account. -/
def save_config_doc {σ : Type} (cfg : AppConfig σ) :
    Option Nat × List (List (String × TomlField)) :=
  (cfg.active, cfg.accounts.map serialize_account)

/-- Session parser instance for witnesses (stands for
`serde_json::from_slice::<MatrixSession>`): accepts the byte string `[42]`. -/
def parseNat : List Nat → Option Nat :=
  fun raw => if raw = [42] then some 42 else none

/-- An envelope that decrypts and parses under `parseNat`. -/
def evGood : EncryptedValue :=
  encrypt_value idAead constKdf (List.replicate 16 0) (List.replicate 12 0)
    [1] [42]

/-- An envelope that decrypts but fails to parse under `parseNat`. -/
def evBad : EncryptedValue :=
  encrypt_value idAead constKdf (List.replicate 16 0) (List.replicate 12 0)
    [1] [7]

/-- A concrete account whose stored session decrypts. -/
def accGood : AccountConfig Nat :=
  ⟨"https://ex.org", "alice", none, none, some evGood, none⟩

/-- A concrete account whose stored session fails to decrypt-and-parse. -/
def accBad : AccountConfig Nat :=
  ⟨"https://ex.org", "bob", none, none, some evBad, none⟩

/-! ## Backfill engine (matrix.rs `backfill_since_last_seen`, lines 535-730)

Per room: `latest_room_timestamp` supplies the stop bound; pages of up to 50
events are requested backward; the loop stops on an empty page, a missing
pagination-end token, or the first deserializable event with timestamp ≤ the
bound (events within the page before that point are kept).  Collected events
are sorted by timestamp ascending and then emitted-and-persisted in order.
The server is modelled as the sequence of pages its paginator returns;
`ok` is whether `deserialize_as::<OriginalRoomMessageEvent>` succeeds and
`keep` whether the message type is one of the five handled kinds yielding an
item (for media kinds: the source descriptor is present). -/

/-- One event of a backfill page, as far as the loop inspects it. -/
structure BfEvent where
  ok : Bool
  keep : Bool
  timestamp : Int
deriving DecidableEq

/-- One page returned by `room.messages`: its chunk and the pagination-end
token. -/
structure BfPage where
  chunk : List BfEvent
  endToken : Option String

/-- The inner `for event in messages.chunk` loop: skip events that fail to
deserialize, stop at the first event with timestamp ≤ the stored latest,
collect handled events; returns the collected events of this page and the
stop flag. -/
def collectChunk (lastTs : Int) : List BfEvent → List BfEvent × Bool
  | [] => ([], false)
  | e :: rest =>
    if e.ok = false then collectChunk lastTs rest
    else if e.timestamp ≤ lastTs then ([], true)
    else
      let r := collectChunk lastTs rest
      (if e.keep then e :: r.1 else r.1, r.2)

/-- The pagination loop: stop on an exhausted paginator (or request error),
an empty chunk, the stop flag, or a missing end token. -/
def collectPages (lastTs : Int) : List BfPage → List BfEvent
  | [] => []
  | p :: rest =>
    if p.chunk = [] then []
    else
      let r := collectChunk lastTs p.chunk
      if r.2 then r.1
      else
        match p.endToken with
        | none => r.1
        | some _ => r.1 ++ collectPages lastTs rest

/-- The comparison of `collected.sort_by_key(|msg| timestamp)`. -/
def bfLe (a b : BfEvent) : Bool := a.timestamp ≤ b.timestamp

/-- A joined room as the backfill engine sees it: the stored latest timestamp
of its log (`none` when `latest_room_timestamp` found no log) and the pages
its paginator returns. -/
structure BfRoom where
  lastTs : Option Int
  pages : List BfPage

/-- matrix.rs `backfill_since_last_seen`, restricted to one room: rooms with
no stored latest timestamp are skipped; otherwise the collected events are
sorted by timestamp ascending (Rust's stable `sort_by_key`, modelled by the
stable `mergeSort`) and emitted-and-persisted in that order. -/
def backfill_since_last_seen (r : BfRoom) : List BfEvent :=
  match r.lastTs with
  | none => []
  | some t => (collectPages t r.pages).mergeSort bfLe

/-- Concrete backfill room for the witness: stored latest timestamp 500, one
page returning timestamps 700, 600, 500, 400 backward. -/
def bfRoomEx : BfRoom :=
  ⟨some 500,
   [⟨[⟨true, true, 700⟩, ⟨true, true, 600⟩, ⟨true, true, 500⟩,
      ⟨true, true, 400⟩], some "tok"⟩]⟩

/-! ## UI session state (main.rs)

`App` is the projection of main.rs's `App` struct onto the fields that the
event processor and notification gate touch; rooms are projected onto their
ids (update_rooms, should_notify and the dedup logic use only `room_id`).
HashMaps become functions `String → Option _` (an absent key maps to `none`),
`HashSet` becomes a list queried by membership.  The chrono-based local-time
formatters `format_timestamp`/`format_date` are external and appear as
parameters `fmtTime`/`fmtDate`. -/

/-- main.rs `MessageItem` (lines 63-78). -/
inductive MessageItem
  | separator (label : String)
  | message (time name text : String)
  | attachment (time name label filename path : String)
deriving DecidableEq

/-- Functional update of a string-keyed map. -/
def mset {α : Type} (m : String → Option α) (k : String) (v : α) :
    String → Option α :=
  fun q => if q = k then some v else m q

/-- main.rs `App` (lines 90-111), projected onto the state the claims are
about. -/
structure App where
  rooms : List String
  selected : Nat
  messages_by_room : String → Option (List MessageItem)
  last_date_by_room : String → Option String
  seen_event_ids : String → Option (List String)
  last_message_ts : String → Option Int
  last_seen_ts : String → Option Int
  unread_counts : String → Option Nat
  notifications_ready : Bool
  own_user_id : Option String
  is_syncing : Bool

/-- main.rs `App::new` (lines 113-137), projected. -/
def App.new : App :=
  { rooms := []
    selected := 0
    messages_by_room := fun _ => none
    last_date_by_room := fun _ => none
    seen_event_ids := fun _ => none
    last_message_ts := fun _ => none
    last_seen_ts := fun _ => none
    unread_counts := fun _ => none
    notifications_ready := false
    own_user_id := none
    is_syncing := true }

/-- main.rs `format_sender` (lines 564-567): strip leading `@`s, take the
part before the first `:`. -/
def format_sender (sender : String) : String :=
  String.mk ((sender.toList.dropWhile (fun c => c = '@')).takeWhile
    (fun c => c ≠ ':'))

/-- main.rs `App::selected_room_id` (lines 333-335). -/
def App.selected_room_id (a : App) : Option String :=
  a.rooms.get? a.selected

/-- main.rs `App::mark_room_read` (lines 474-479): copy the last-message
timestamp (when one exists) into last-seen, zero the unread counter. -/
def App.mark_room_read (a : App) (room : String) : App :=
  let a1 :=
    match a.last_message_ts room with
    | some ts => { a with last_seen_ts := mset a.last_seen_ts room ts }
    | none => a
  { a1 with unread_counts := mset a1.unread_counts room 0 }

/-- Common tail of `push_message_with_time` (lines 495-508) after the dedup
gate: insert a day separator when the date label changes, append the item,
update the last-message timestamp.  (`entry().or_default()` materializes the
message list and date-label entries, hence the unconditional map writes.) -/
def App.push_item_body (a : App) (room : String) (date : String)
    (item : MessageItem) (ts : Int) : App :=
  let msgs := (a.messages_by_room room).getD []
  let lastDate := (a.last_date_by_room room).getD ""
  let msgs1 := if lastDate ≠ date then msgs ++ [MessageItem.separator date]
               else msgs
  { a with
    messages_by_room := mset a.messages_by_room room (msgs1 ++ [item])
    last_date_by_room :=
      mset a.last_date_by_room room (if lastDate ≠ date then date else lastDate)
    last_message_ts := mset a.last_message_ts room ts }

/-- main.rs `App::push_message_with_time` (lines 481-509): drop the event
when its id is already in the room's seen set, otherwise record the id and
push the message item. -/
def App.push_message_with_time (fmtTime fmtDate : Int → String) (a : App)
    (room : String) (event_id : Option String) (ts : Int)
    (sender body : String) : App :=
  match event_id with
  | some eid =>
    let seen := (a.seen_event_ids room).getD []
    if eid ∈ seen then a
    else
      App.push_item_body
        { a with seen_event_ids := mset a.seen_event_ids room (eid :: seen) }
        room (fmtDate ts)
        (MessageItem.message (fmtTime ts) (format_sender sender) body) ts
  | none =>
      App.push_item_body a room (fmtDate ts)
        (MessageItem.message (fmtTime ts) (format_sender sender) body) ts

/-- main.rs `App::push_attachment_with_time` (lines 511-543): same gate,
attachment item. -/
def App.push_attachment_with_time (fmtTime fmtDate : Int → String) (a : App)
    (room : String) (event_id : Option String) (ts : Int)
    (sender label filename path : String) : App :=
  match event_id with
  | some eid =>
    let seen := (a.seen_event_ids room).getD []
    if eid ∈ seen then a
    else
      App.push_item_body
        { a with seen_event_ids := mset a.seen_event_ids room (eid :: seen) }
        room (fmtDate ts)
        (MessageItem.attachment (fmtTime ts) (format_sender sender) label
          filename path) ts
  | none =>
      App.push_item_body a room (fmtDate ts)
        (MessageItem.attachment (fmtTime ts) (format_sender sender) label
          filename path) ts

/-- main.rs `App::handle_incoming_message` (lines 388-410): bump the unread
counter when the room is not selected and the timestamp is newer than
last-seen, push through the dedup gate, mark read when selected. -/
def App.handle_incoming_message (fmtTime fmtDate : Int → String) (a : App)
    (room : String) (event_id : Option String) (ts : Int)
    (sender body : String) : App :=
  let lastSeen := (a.last_seen_ts room).getD 0
  let a1 :=
    if a.selected_room_id ≠ some room ∧ lastSeen < ts then
      { a with
          unread_counts :=
            mset a.unread_counts room ((a.unread_counts room).getD 0 + 1) }
    else a
  let a2 := a1.push_message_with_time fmtTime fmtDate room event_id ts sender body
  if a.selected_room_id = some room then a2.mark_room_read room else a2

/-- main.rs `App::handle_incoming_attachment` (lines 412-444): same shape as
the message handler. -/
def App.handle_incoming_attachment (fmtTime fmtDate : Int → String) (a : App)
    (room : String) (event_id : Option String) (ts : Int)
    (sender label filename path : String) : App :=
  let lastSeen := (a.last_seen_ts room).getD 0
  let a1 :=
    if a.selected_room_id ≠ some room ∧ lastSeen < ts then
      { a with
          unread_counts :=
            mset a.unread_counts room ((a.unread_counts room).getD 0 + 1) }
    else a
  let a2 := a1.push_attachment_with_time fmtTime fmtDate room event_id ts sender
    label filename path
  if a.selected_room_id = some room then a2.mark_room_read room else a2

/-- main.rs `App::should_notify` (lines 454-472): notifications ready, room
not selected, sender not the logged-in user. -/
def App.should_notify (a : App) (room sender : String) : Bool :=
  if a.notifications_ready = false then false
  else if a.selected_room_id = some room then false
  else
    match a.own_user_id with
    | some own => if sender = own then false else true
    | none => true

/-- Per-room part of `App::update_rooms` (lines 368-378): materialize the
default entries (`entry().or_default()`) for a listed room. -/
def App.touch_room (a : App) (room : String) : App :=
  { a with
    messages_by_room :=
      if (a.messages_by_room room).isSome then a.messages_by_room
      else mset a.messages_by_room room []
    seen_event_ids :=
      if (a.seen_event_ids room).isSome then a.seen_event_ids
      else mset a.seen_event_ids room []
    unread_counts :=
      if (a.unread_counts room).isSome then a.unread_counts
      else mset a.unread_counts room 0
    last_seen_ts :=
      if (a.last_seen_ts room).isSome then a.last_seen_ts
      else mset a.last_seen_ts room 0
    last_message_ts :=
      if (a.last_message_ts room).isSome then a.last_message_ts
      else mset a.last_message_ts room 0 }

/-- main.rs `App::update_rooms` (lines 367-386): touch every listed room,
install the new room list, reset the selection, clear the syncing flag, mark
the newly selected room read. -/
def App.update_rooms (a : App) (rooms : List String) : App :=
  let a1 := rooms.foldl App.touch_room a
  let a2 := { a1 with rooms := rooms, selected := 0, is_syncing := false }
  match a2.selected_room_id with
  | some room => a2.mark_room_read room
  | none => a2

/-- matrix.rs `MatrixEvent` (lines 47-83), rooms projected onto ids. -/
inductive MatrixEvent
  | rooms (roomIds : List String)
  | message (room_id event_id sender body : String) (timestamp : Int)
      (reply_to : Option String)
  | attachment (room_id event_id sender name path kind : String)
      (timestamp : Int) (reply_to : Option String)
  | receipt (room_id event_id : String)
  | backfillDone
  | verificationStatus (message : String)
  | verificationEmojis (emojis : List (String × String))
  | verificationDone
  | verificationCancelled (reason : String)
deriving DecidableEq

/-- Whether an event is `BackfillDone`. -/
def MatrixEvent.isBackfillDone : MatrixEvent → Bool
  | .backfillDone => true
  | _ => false

/-- One iteration of the event-drain loop in main.rs `run_app`
(lines 969-1031): the state after processing the event, and the external
notifications (room, sender) emitted for it.  `Message` and `Attachment`
run their handler and then consult `should_notify`; `BackfillDone` arms the
notification gate; verification events touch only the verification overlay
(outside this projection); `Receipt` updates nothing in this projection. -/
def stepEvent (fmtTime fmtDate : Int → String) (a : App) :
    MatrixEvent → App × List (String × String)
  | .rooms rs => (a.update_rooms rs, [])
  | .message room eid sender body ts _ =>
    let a1 := a.handle_incoming_message fmtTime fmtDate room (some eid) ts
      sender body
    (a1, if a1.should_notify room sender then [(room, sender)] else [])
  | .attachment room eid sender name path kind ts _ =>
    let a1 := a.handle_incoming_attachment fmtTime fmtDate room (some eid) ts
      sender kind name path
    (a1, if a1.should_notify room sender then [(room, sender)] else [])
  | .receipt _ _ => (a, [])
  | .backfillDone => ({ a with notifications_ready := true }, [])
  | .verificationStatus _ => (a, [])
  | .verificationEmojis _ => (a, [])
  | .verificationDone => (a, [])
  | .verificationCancelled _ => (a, [])

/-- The event-drain loop over a sequence of events, accumulating the emitted
notifications in order. -/
def runEvents (fmtTime fmtDate : Int → String) (a : App) :
    List MatrixEvent → App × List (String × String)
  | [] => (a, [])
  | e :: rest =>
    let r1 := stepEvent fmtTime fmtDate a e
    let r2 := runEvents fmtTime fmtDate r1.1 rest
    (r2.1, r1.2 ++ r2.2)

/-- Concrete state for the C6 counterexample: room `!sel:x` is selected, room
`!dup:x` has `$e1` in its seen set and no unread entry. -/
def cexApp : App :=
  { rooms := ["!sel:x"]
    selected := 0
    messages_by_room := fun _ => none
    last_date_by_room := fun _ => none
    seen_event_ids := fun room => if room = "!dup:x" then some ["$e1"] else none
    last_message_ts := fun _ => none
    last_seen_ts := fun _ => none
    unread_counts := fun _ => none
    notifications_ready := false
    own_user_id := none
    is_syncing := true }

/-- Constant stand-ins for the chrono formatters in closed statements. -/
def fmtTime0 : Int → String := fun _ => "00:00"

/-- Constant date formatter stand-in. -/
def fmtDate0 : Int → String := fun _ => "Monday, 01/01/24"

/-- What processing a duplicate event actually leaves unchanged, and how the
unread counter moves: message list, date marker, last-message timestamp and
seen sets are untouched; the unread counter of other rooms is untouched; the
event's room's counter is reset to 0 when the room is selected, incremented
when the room is not selected and the timestamp beats last-seen, and
untouched otherwise. -/
def DupFrameOk (a a1 : App) (room : String) (ts : Int) : Prop :=
  a1.messages_by_room = a.messages_by_room ∧
  a1.last_date_by_room = a.last_date_by_room ∧
  a1.last_message_ts = a.last_message_ts ∧
  a1.seen_event_ids = a.seen_event_ids ∧
  (∀ r, r ≠ room → a1.unread_counts r = a.unread_counts r) ∧
  a1.unread_counts room =
    (if a.selected_room_id = some room then some 0
     else if (a.last_seen_ts room).getD 0 < ts then
       some ((a.unread_counts room).getD 0 + 1)
     else a.unread_counts room)

/-- The parts of the UI state that the event handlers never change and that
the notification gate reads: room list, selection, the
notifications-ready flag and the logged-in user id. -/
def SameShell (a b : App) : Prop :=
  b.rooms = a.rooms ∧ b.selected = a.selected ∧
  b.notifications_ready = a.notifications_ready ∧
  b.own_user_id = a.own_user_id

-- ===================== THEOREMS =====================

/-- Every 6-bit value decodes back from its alphabet character, and no
alphabet character is the padding character. -/
theorem sextetTable :
    ∀ i : Fin 64, sextetOf (sextetChar i.val) = some i.val ∧ sextetChar i.val ≠ '=' := by
  decide

theorem sextetOf_sextetChar {n : Nat} (h : n < 64) :
    sextetOf (sextetChar n) = some n :=
  (sextetTable ⟨n, h⟩).1

theorem sextetChar_ne_pad {n : Nat} (h : n < 64) : sextetChar n ≠ '=' :=
  (sextetTable ⟨n, h⟩).2

/-- Base64 decoding inverts encoding on byte sequences. -/
theorem b64decode_encode :
    ∀ l : List Nat, (∀ b ∈ l, b < 256) → b64decodeList (b64encodeList l) = some l
  | [], _ => rfl
  | [b1], h => by
      have hb1 : b1 < 256 := h b1 (by simp)
      have h1 : sextetOf (sextetChar (b1 / 4)) = some (b1 / 4) :=
        sextetOf_sextetChar (by omega)
      have h2 : sextetOf (sextetChar (b1 % 4 * 16)) = some (b1 % 4 * 16) :=
        sextetOf_sextetChar (by omega)
      simp [b64encodeList, b64decodeList, h1, h2, Nat.mul_mod_left]
      omega
  | [b1, b2], h => by
      have hb1 : b1 < 256 := h b1 (by simp)
      have hb2 : b2 < 256 := h b2 (by simp)
      have h1 : sextetOf (sextetChar (b1 / 4)) = some (b1 / 4) :=
        sextetOf_sextetChar (by omega)
      have h2 : sextetOf (sextetChar (b1 % 4 * 16 + b2 / 16)) = some (b1 % 4 * 16 + b2 / 16) :=
        sextetOf_sextetChar (by omega)
      have h3 : sextetOf (sextetChar (b2 % 16 * 4)) = some (b2 % 16 * 4) :=
        sextetOf_sextetChar (by omega)
      have hne : ¬ sextetChar (b2 % 16 * 4) = '=' := sextetChar_ne_pad (by omega)
      simp [b64encodeList, b64decodeList, h1, h2, h3, hne, Nat.mul_mod_left]
      omega
  | b1 :: b2 :: b3 :: rest, h => by
      have hb1 : b1 < 256 := h b1 (by simp)
      have hb2 : b2 < 256 := h b2 (by simp)
      have hb3 : b3 < 256 := h b3 (by simp)
      have ih : b64decodeList (b64encodeList rest) = some rest :=
        b64decode_encode rest (fun b hb => h b (by simp [hb]))
      have h1 : sextetOf (sextetChar (b1 / 4)) = some (b1 / 4) :=
        sextetOf_sextetChar (by omega)
      have h2 : sextetOf (sextetChar (b1 % 4 * 16 + b2 / 16)) = some (b1 % 4 * 16 + b2 / 16) :=
        sextetOf_sextetChar (by omega)
      have h3 : sextetOf (sextetChar (b2 % 16 * 4 + b3 / 64)) = some (b2 % 16 * 4 + b3 / 64) :=
        sextetOf_sextetChar (by omega)
      have h4 : sextetOf (sextetChar (b3 % 64)) = some (b3 % 64) :=
        sextetOf_sextetChar (by omega)
      have hne3 : ¬ sextetChar (b2 % 16 * 4 + b3 / 64) = '=' := sextetChar_ne_pad (by omega)
      have hne4 : ¬ sextetChar (b3 % 64) = '=' := sextetChar_ne_pad (by omega)
      simp [b64encodeList, b64decodeList, h1, h2, h3, h4, hne3, hne4, ih]
      omega

/-- Claim C1: decrypting the envelope produced by encryption under the same
passphrase returns the plaintext, both for the embedded `EncryptedValue` form
(`decrypt_value` of `encrypt_value`) and for the binary file form
(`read_encrypted` of the bytes `write_encrypted` wrote), assuming the external
AES-256-GCM cipher satisfies its AEAD contract; the salt and nonce stand for
the fresh 16- and 12-byte random values drawn during encryption. -/
theorem encrypt_decrypt_roundtrip (A : AeadScheme) (kdf : Kdf)
    (salt nonce pass m : List Nat)
    (hA : AeadCorrect A) (hAB : AeadBytes A)
    (hsl : salt.length = 16) (hnl : nonce.length = 12)
    (hsb : ∀ b ∈ salt, b < 256) (hnb : ∀ b ∈ nonce, b < 256)
    (hmb : ∀ b ∈ m, b < 256) :
    decrypt_value A kdf pass (encrypt_value A kdf salt nonce pass m) = some m ∧
    read_encrypted A kdf (write_encrypted A kdf salt nonce pass m) pass = some m := by
  have hct : ∀ b ∈ encrypt_bytes A kdf pass salt nonce m, b < 256 :=
    hAB (kdf pass salt) nonce m hmb
  have e1 := b64decode_encode salt hsb
  have e2 := b64decode_encode nonce hnb
  have e3 := b64decode_encode _ hct
  constructor
  · have : (String.mk (b64encodeList salt)).toList = b64encodeList salt := rfl
    simp [decrypt_value, encrypt_value, String.toList, e1, e2, e3, hsl, hnl,
      decrypt_bytes]
    exact hA (kdf pass salt) nonce m hmb
  · have t1 : (salt ++ (nonce ++ encrypt_bytes A kdf pass salt nonce m)).take 16
        = salt := List.take_left' hsl
    have d1 : (salt ++ (nonce ++ encrypt_bytes A kdf pass salt nonce m)).drop 16
        = nonce ++ encrypt_bytes A kdf pass salt nonce m := List.drop_left' hsl
    have t2 : (nonce ++ encrypt_bytes A kdf pass salt nonce m).take 12 = nonce :=
      List.take_left' hnl
    have d2 : (nonce ++ encrypt_bytes A kdf pass salt nonce m).drop 12
        = encrypt_bytes A kdf pass salt nonce m := List.drop_left' hnl
    have hlen : ¬ (salt ++ nonce ++ encrypt_bytes A kdf pass salt nonce m).length
        < 16 + 12 := by
      simp [List.length_append, hsl, hnl]
      omega
    rw [read_encrypted, write_encrypted, if_neg hlen, List.append_assoc,
      t1, d1, t2, d2]
    exact hA (kdf pass salt) nonce m hmb

/-- Witness for C1 at a concrete cipher, passphrase and plaintext. -/
theorem encrypt_decrypt_roundtrip_witness :
    AeadCorrect idAead ∧
    decrypt_value idAead constKdf [112]
      (encrypt_value idAead constKdf (List.replicate 16 0) (List.replicate 12 0)
        [112] [104, 101, 121]) = some [104, 101, 121] :=
  ⟨fun _ _ _ _ => rfl,
   (encrypt_decrypt_roundtrip idAead constKdf
      (List.replicate 16 0) (List.replicate 12 0) [112] [104, 101, 121]
      (fun _ _ _ _ => rfl) (fun _ _ _ h => h)
      (by simp) (by simp) (by decide) (by decide) (by decide)).1⟩

/-- Claim C2: appending a record with a non-null event id twice yields the
same decrypted log content as appending it once — the second append finds the
existing record with that event id and leaves the stored array unchanged. -/
theorem append_message_idempotent (records : List StoredMessage)
    (r : StoredMessage) (e : String) (h : r.event_id = some e) :
    append_message (append_message records r) r = append_message records r := by
  by_cases hany : (records.any fun msg => msg.event_id = some e) = true
  · simp [append_message, h, hany]
  · simp only [Bool.not_eq_true] at hany
    have h2 : ((records ++ [r]).any fun msg => msg.event_id = some e) = true := by
      simp [List.any_append, h]
    simp [append_message, h, hany, h2]

/-- Witness for C2 on a concrete record and the empty log. -/
theorem append_message_idempotent_witness :
    (⟨1000, "@a:x", "hi", some "$e1"⟩ : StoredMessage).event_id = some "$e1" ∧
    append_message (append_message [] ⟨1000, "@a:x", "hi", some "$e1"⟩)
        ⟨1000, "@a:x", "hi", some "$e1"⟩
      = append_message [] ⟨1000, "@a:x", "hi", some "$e1"⟩ :=
  ⟨rfl, append_message_idempotent [] ⟨1000, "@a:x", "hi", some "$e1"⟩ "$e1" rfl⟩

/-- Claim C5 (evidence of the source inconsistency): the `StoredMessage`
record that storage.rs actually defines is fully determined by timestamp,
sender, body and event id — it carries no reply-to field and no attachment
descriptor, although matrix.rs `store_message_encrypted` and the main.rs
startup loader expect those fields on it. -/
theorem storedMessage_determined_by_four_fields (m1 m2 : StoredMessage)
    (h1 : m1.timestamp = m2.timestamp) (h2 : m1.sender = m2.sender)
    (h3 : m1.body = m2.body) (h4 : m1.event_id = m2.event_id) : m1 = m2 := by
  cases m1
  cases m2
  simp_all

/-- Witness for the C5 evidence theorem. -/
theorem storedMessage_determined_by_four_fields_witness :
    (⟨7, "@b:x", "yo", none⟩ : StoredMessage).timestamp
        = (⟨7, "@b:x", "yo", none⟩ : StoredMessage).timestamp ∧
    (⟨7, "@b:x", "yo", none⟩ : StoredMessage) = ⟨7, "@b:x", "yo", none⟩ :=
  ⟨rfl, storedMessage_determined_by_four_fields _ _ rfl rfl rfl rfl⟩

/-- If the head of `dropWhile p l` exists, the predicate fails on it. -/
theorem head?_dropWhile_false {α : Type} (p : α → Bool) :
    ∀ (l : List α) (c : α), (l.dropWhile p).head? = some c → p c = false := by
  intro l
  induction l with
  | nil => intro c hc; simp [List.dropWhile] at hc
  | cons a l ih =>
    intro c hc
    by_cases hpa : p a = true
    · rw [List.dropWhile_cons, if_pos hpa] at hc
      exact ih c hc
    · rw [List.dropWhile_cons, if_neg hpa] at hc
      simp only [List.head?_cons, Option.some.injEq] at hc
      subst hc
      simpa using hpa

/-- If `dropWhile p l` is nonempty, it ends where `l` ends. -/
theorem getLast?_dropWhile {α : Type} (p : α → Bool) :
    ∀ l : List α, l.dropWhile p ≠ [] → (l.dropWhile p).getLast? = l.getLast? := by
  intro l
  induction l with
  | nil => intro hne; simp [List.dropWhile] at hne
  | cons a l ih =>
    intro hne
    by_cases hpa : p a = true
    · rw [List.dropWhile_cons, if_pos hpa] at hne ⊢
      have hlne : l ≠ [] := by
        intro hl
        subst hl
        simp [List.dropWhile] at hne
      rw [ih hne]
      cases l with
      | nil => exact absurd rfl hlne
      | cons b t => rw [List.getLast?_cons_cons]
    · rw [List.dropWhile_cons, if_neg hpa]

/-- Characters of the trimmed list are characters of the original. -/
theorem mem_trimChars (l : List Char) (c : Char) (h : c ∈ trimChars l) :
    c ∈ l := by
  rw [trimChars, List.mem_reverse] at h
  have h2 : c ∈ (l.dropWhile isRustWhitespace).reverse :=
    List.Sublist.mem h (List.dropWhile_sublist isRustWhitespace)
  rw [List.mem_reverse] at h2
  exact List.Sublist.mem h2 (List.dropWhile_sublist isRustWhitespace)

/-- Claim C9: the sanitized attachment filename is nonempty, contains no
slash or backslash, starts and ends with non-whitespace, and equals the
literal `"attachment"` exactly when replacing slashes and trimming leaves
nothing. -/
theorem sanitize_filename_spec (name : List Char) :
    sanitize_filename name ≠ [] ∧
    '/' ∉ sanitize_filename name ∧
    '\\' ∉ sanitize_filename name ∧
    (∀ c, (sanitize_filename name).head? = some c → isRustWhitespace c = false) ∧
    (∀ c, (sanitize_filename name).getLast? = some c → isRustWhitespace c = false) ∧
    (trimChars (replaceSlashes name) = [] →
      sanitize_filename name = "attachment".toList) := by
  by_cases hemp : trimChars (replaceSlashes name) = []
  · have hs0 : sanitize_filename name = "attachment".toList := by
      simp [sanitize_filename, hemp]
    rw [hs0]
    refine ⟨by decide, by decide, by decide, ?_, ?_, fun _ => rfl⟩
    · intro c hc
      rw [show ("attachment".toList).head? = some 'a' by decide] at hc
      injection hc with h
      subst h
      decide
    · intro c hc
      rw [show ("attachment".toList).getLast? = some 't' by decide] at hc
      injection hc with h
      subst h
      decide
  · have hs : sanitize_filename name = trimChars (replaceSlashes name) := by
      rw [sanitize_filename, if_neg hemp]
    have hnoslash : ∀ c ∈ trimChars (replaceSlashes name),
        ¬(c = '/' ∨ c = '\\') := by
      intro c hc
      have hmem := mem_trimChars _ _ hc
      rw [replaceSlashes, List.mem_map] at hmem
      obtain ⟨b, _, rfl⟩ := hmem
      by_cases hb : b = '/' ∨ b = '\\'
      · simp only [if_pos hb]
        decide
      · simp only [if_neg hb]
        exact hb
    refine ⟨by rw [hs]; exact hemp, ?_, ?_, ?_, ?_, fun habs => absurd habs hemp⟩
    · rw [hs]
      intro hc
      exact hnoslash _ hc (Or.inl rfl)
    · rw [hs]
      intro hc
      exact hnoslash _ hc (Or.inr rfl)
    · intro c hc
      rw [hs] at hc
      rw [trimChars, List.head?_reverse] at hc
      have hne : (((replaceSlashes name).dropWhile isRustWhitespace).reverse.dropWhile
          isRustWhitespace) ≠ [] := by
        intro habs
        apply hemp
        rw [trimChars, habs]
        rfl
      rw [getLast?_dropWhile isRustWhitespace _ hne, List.getLast?_reverse] at hc
      exact head?_dropWhile_false isRustWhitespace _ c hc
    · intro c hc
      rw [hs] at hc
      rw [trimChars, List.getLast?_reverse] at hc
      exact head?_dropWhile_false isRustWhitespace _ c hc

/-- Witness for C9 at concrete filenames. -/
theorem sanitize_filename_spec_witness :
    '/' ∉ sanitize_filename (" /etc/passwd ".toList) ∧
    sanitize_filename ("  ".toList) = "attachment".toList :=
  ⟨(sanitize_filename_spec (" /etc/passwd ".toList)).2.1,
   (sanitize_filename_spec ("  ".toList)).2.2.2.2.2 (by decide)⟩

/-- Replacing `:` by `_` and then `_` by `:` restores a room id exactly when
the id contains no underscore. -/
theorem roomKey_roundtrip_iff (roomId : List Char) :
    roomKeyToId (roomDirKey roomId) = roomId ↔ '_' ∉ roomId := by
  induction roomId with
  | nil => simp [roomDirKey, roomKeyToId]
  | cons a l ih =>
    simp only [roomDirKey, roomKeyToId, List.map_cons, List.cons.injEq,
      List.mem_cons] at ih ⊢
    constructor
    · rintro ⟨h1, h2⟩
      intro hmem
      rcases hmem with h | h
      · have ha : a = '_' := h.symm
        subst ha
        simp at h1
      · exact (ih.mp h2) h
    · intro hmem
      have ha : a ≠ '_' := fun habs => hmem (Or.inl habs.symm)
      have hl : ¬ '_' ∈ l := fun habs => hmem (Or.inr habs)
      refine ⟨?_, ih.mpr hl⟩
      by_cases hc : a = ':'
      · subst hc
        decide
      · rw [if_neg hc, if_neg ha]

/-- Two room ids that agree up to `:` versus `_` have the same directory
key. -/
theorem roomDirKey_eq_of_colon_underscore (s t : List Char)
    (h : List.Forall₂
      (fun a b => a = b ∨ (a = ':' ∧ b = '_') ∨ (a = '_' ∧ b = ':')) s t) :
    roomDirKey s = roomDirKey t := by
  induction h with
  | nil => rfl
  | cons hab htail ih =>
    simp only [roomDirKey, List.map_cons] at ih ⊢
    rw [ih]
    congr 1
    rcases hab with rfl | ⟨rfl, rfl⟩ | ⟨rfl, rfl⟩
    · rfl
    · decide
    · decide

/-- Claim C10: the startup loader's underscore-to-colon mapping inverts the
store's colon-to-underscore mapping exactly for room ids without `_`, and two
room ids that differ only in `:` versus `_` at some positions share the same
log path. -/
theorem room_key_mapping (roomId s t : List Char) (base : List (List Char))
    (h : List.Forall₂
      (fun a b => a = b ∨ (a = ':' ∧ b = '_') ∨ (a = '_' ∧ b = ':')) s t) :
    (roomKeyToId (roomDirKey roomId) = roomId ↔ '_' ∉ roomId) ∧
    room_log_path base s = room_log_path base t := by
  refine ⟨roomKey_roundtrip_iff roomId, ?_⟩
  simp only [room_log_path]
  rw [roomDirKey_eq_of_colon_underscore s t h]

/-- Witness for C10: `!a:x` and `!a_x` collide on the same log path. -/
theorem room_key_mapping_witness :
    List.Forall₂
      (fun a b => a = b ∨ (a = ':' ∧ b = '_') ∨ (a = '_' ∧ b = ':'))
      ['!', 'a', ':', 'x'] ['!', 'a', '_', 'x'] ∧
    room_log_path [] ['!', 'a', ':', 'x'] = room_log_path [] ['!', 'a', '_', 'x'] := by
  have h : List.Forall₂
      (fun a b => a = b ∨ (a = ':' ∧ b = '_') ∨ (a = '_' ∧ b = ':'))
      ['!', 'a', ':', 'x'] ['!', 'a', '_', 'x'] :=
    List.Forall₂.cons (Or.inl rfl)
      (List.Forall₂.cons (Or.inl rfl)
        (List.Forall₂.cons (Or.inr (Or.inl ⟨rfl, rfl⟩))
          (List.Forall₂.cons (Or.inl rfl) List.Forall₂.nil)))
  exact ⟨h, (room_key_mapping ['!', 'a', ':', 'x'] _ _ [] h).2⟩

/-- Claim C4 counterexample: with two accounts whose envelopes are good then
bad, `decrypt_sessions` returns the error flag, yet the first account's
cleartext session field has been populated by the failed call — the
configuration is not left unchanged, decryption is partial. -/
theorem decrypt_sessions_partial_decryption_cex :
    (decrypt_sessions idAead constKdf parseNat [1] [accGood, accBad]).2 = false ∧
    ((decrypt_sessions idAead constKdf parseNat [1] [accGood, accBad]).1.head?.bind
      (fun a => a.session)) = some 42 ∧
    accGood.session = none := by
  decide

/-- Claim C4 (amended): when `decrypt_sessions` fails it returns the
`SessionDecrypt` error, the failing account and every account after it are
left unchanged, and every account is either untouched or has exactly its
cleartext session field populated — in particular accounts before the failure
point whose envelopes decrypted successfully keep their populated sessions
(decryption is partial up to the first failure). -/
theorem decrypt_sessions_fail_frame {σ : Type} (A : AeadScheme) (kdf : Kdf)
    (parse : List Nat → Option σ) (pass : List Nat)
    (l : List (AccountConfig σ)) :
    List.Forall₂ (fun a b => b = a ∨ ∃ s, b = { a with session := some s }) l
      (decrypt_sessions A kdf parse pass l).1 ∧
    ((decrypt_sessions A kdf parse pass l).2 = false →
      ∃ pre bad post, l = pre ++ bad :: post ∧
        (decrypt_sessions A kdf parse pass l).1
          = (decrypt_sessions A kdf parse pass pre).1 ++ bad :: post ∧
        (decrypt_sessions A kdf parse pass pre).2 = true) := by
  induction l with
  | nil => exact ⟨List.Forall₂.nil, by simp [decrypt_sessions]⟩
  | cons a rest ih =>
    by_cases hs : a.session.isSome = true
    · simp only [decrypt_sessions, if_pos hs]
      refine ⟨List.Forall₂.cons (Or.inl rfl) ih.1, ?_⟩
      intro hfail
      obtain ⟨pre, bad, post, hsplit, hlist, hflag⟩ := ih.2 hfail
      refine ⟨a :: pre, bad, post, by simp [hsplit], ?_, ?_⟩
      · simp only [decrypt_sessions, if_pos hs, List.cons_append, hlist]
      · simp only [decrypt_sessions, if_pos hs, hflag]
    · cases hse : a.session_encrypted with
      | none =>
        simp only [decrypt_sessions, if_neg hs, hse]
        refine ⟨List.Forall₂.cons (Or.inl rfl) ih.1, ?_⟩
        intro hfail
        obtain ⟨pre, bad, post, hsplit, hlist, hflag⟩ := ih.2 hfail
        refine ⟨a :: pre, bad, post, by simp [hsplit], ?_, ?_⟩
        · simp only [decrypt_sessions, if_neg hs, hse, List.cons_append, hlist]
        · simp only [decrypt_sessions, if_neg hs, hse, hflag]
      | some ev =>
        cases hdv : decrypt_value A kdf pass ev with
        | none =>
          simp only [decrypt_sessions, if_neg hs, hse, hdv]
          refine ⟨List.Forall₂.cons (Or.inl rfl)
            (List.forall₂_same.mpr (fun x _ => Or.inl rfl)), ?_⟩
          intro _
          exact ⟨[], a, rest, rfl, by simp [decrypt_sessions], by simp [decrypt_sessions]⟩
        | some raw =>
          cases hp : parse raw with
          | none =>
            simp only [decrypt_sessions, if_neg hs, hse, hdv, hp]
            refine ⟨List.Forall₂.cons (Or.inl rfl)
              (List.forall₂_same.mpr (fun x _ => Or.inl rfl)), ?_⟩
            intro _
            exact ⟨[], a, rest, rfl, by simp [decrypt_sessions], by simp [decrypt_sessions]⟩
          | some s =>
            simp only [decrypt_sessions, if_neg hs, hse, hdv, hp]
            refine ⟨List.Forall₂.cons (Or.inr ⟨s, by rw [hse]⟩) ih.1, ?_⟩
            intro hfail
            obtain ⟨pre, bad, post, hsplit, hlist, hflag⟩ := ih.2 hfail
            refine ⟨a :: pre, bad, post, by simp [hsplit], ?_, ?_⟩
            · simp only [decrypt_sessions, if_neg hs, hse, hdv, hp,
                List.cons_append, hlist]
            · simp only [decrypt_sessions, if_neg hs, hse, hdv, hp, hflag]

/-- Witness for the amended C4 theorem on a concrete failing configuration. -/
theorem decrypt_sessions_fail_frame_witness :
    (decrypt_sessions idAead constKdf parseNat [1] [accBad]).2 = false ∧
    (∃ pre bad post, [accBad] = pre ++ bad :: post ∧
      (decrypt_sessions idAead constKdf parseNat [1] [accBad]).1
        = (decrypt_sessions idAead constKdf parseNat [1] pre).1 ++ bad :: post ∧
      (decrypt_sessions idAead constKdf parseNat [1] pre).2 = true) :=
  ⟨by decide,
   (decrypt_sessions_fail_frame idAead constKdf parseNat [1] [accBad]).2 (by decide)⟩

/-- Claim C8: the serialized configuration document contains no `session`
key in any account table — only, when the envelope is present, the
`session_encrypted` table. -/
theorem save_config_omits_session {σ : Type} (cfg : AppConfig σ) :
    (∀ tbl ∈ (save_config_doc cfg).2, "session" ∉ tbl.map Prod.fst) ∧
    (∀ a ∈ cfg.accounts,
      ("session_encrypted" ∈ (serialize_account a).map Prod.fst ↔
        a.session_encrypted.isSome)) := by
  have hkey : ∀ a : AccountConfig σ,
      "session" ∉ (serialize_account a).map Prod.fst := by
    rintro ⟨hs, us, uid, dn, se, ss⟩
    cases uid <;> cases dn <;> cases se <;> simp [serialize_account]
  have hivf : ∀ a : AccountConfig σ,
      ("session_encrypted" ∈ (serialize_account a).map Prod.fst ↔
        a.session_encrypted.isSome) := by
    rintro ⟨hs, us, uid, dn, se, ss⟩
    cases uid <;> cases dn <;> cases se <;> simp [serialize_account]
  constructor
  · intro tbl htbl
    simp only [save_config_doc, List.mem_map] at htbl
    obtain ⟨a, _, rfl⟩ := htbl
    exact hkey a
  · intro a _
    exact hivf a

/-- Witness for C8 on a concrete one-account configuration. -/
theorem save_config_omits_session_witness :
    accGood ∈ (⟨[accGood], some 0⟩ : AppConfig Nat).accounts ∧
    ("session_encrypted" ∈ (serialize_account accGood).map Prod.fst ↔
      accGood.session_encrypted.isSome) :=
  ⟨by simp,
   (save_config_omits_session ⟨[accGood], some 0⟩).2 accGood (by simp)⟩

/-- Every event collected from a chunk has timestamp above the stored
latest. -/
theorem collectChunk_mem (lastTs : Int) :
    ∀ c : List BfEvent, ∀ e ∈ (collectChunk lastTs c).1, lastTs < e.timestamp := by
  intro c
  induction c with
  | nil => simp [collectChunk]
  | cons a rest ih =>
    intro e he
    by_cases hok : a.ok = false
    · rw [collectChunk, if_pos hok] at he
      exact ih e he
    · rw [collectChunk, if_neg hok] at he
      by_cases hts : a.timestamp ≤ lastTs
      · rw [if_pos hts] at he
        simp at he
      · rw [if_neg hts] at he
        by_cases hkeep : a.keep = true
        · simp only [hkeep, if_true] at he
          rcases List.mem_cons.mp he with rfl | hmem
          · omega
          · exact ih e hmem
        · simp only [hkeep, if_false, Bool.false_eq_true] at he
          exact ih e he

/-- Every event collected across pages has timestamp above the stored
latest. -/
theorem collectPages_mem (lastTs : Int) :
    ∀ ps : List BfPage, ∀ e ∈ collectPages lastTs ps, lastTs < e.timestamp := by
  intro ps
  induction ps with
  | nil => simp [collectPages]
  | cons p rest ih =>
    intro e he
    rw [collectPages] at he
    by_cases hc : p.chunk = []
    · rw [if_pos hc] at he
      simp at he
    · rw [if_neg hc] at he
      by_cases hstop : (collectChunk lastTs p.chunk).2 = true
      · rw [if_pos hstop] at he
        exact collectChunk_mem lastTs p.chunk e he
      · rw [if_neg hstop] at he
        cases htok : p.endToken with
        | none =>
          rw [htok] at he
          exact collectChunk_mem lastTs p.chunk e he
        | some tok =>
          rw [htok] at he
          rcases List.mem_append.mp he with hmem | hmem
          · exact collectChunk_mem lastTs p.chunk e hmem
          · exact ih e hmem

/-- Claim C3: a joined room with no stored latest timestamp is skipped
entirely; for a room with stored latest timestamp t, every emitted (and
persisted) event has timestamp strictly above t, and the emitted sequence is
in ascending timestamp order. -/
theorem backfill_bound_sorted_skip (r : BfRoom) :
    (r.lastTs = none → backfill_since_last_seen r = []) ∧
    (∀ t, r.lastTs = some t →
      (∀ e ∈ backfill_since_last_seen r, t < e.timestamp) ∧
      (backfill_since_last_seen r).Pairwise
        (fun a b => a.timestamp ≤ b.timestamp)) := by
  constructor
  · intro h
    simp [backfill_since_last_seen, h]
  · intro t ht
    have hout : backfill_since_last_seen r
        = (collectPages t r.pages).mergeSort bfLe := by
      simp [backfill_since_last_seen, ht]
    constructor
    · intro e he
      rw [hout, List.mem_mergeSort] at he
      exact collectPages_mem t r.pages e he
    · rw [hout]
      have hp := @List.sorted_mergeSort BfEvent bfLe
        (fun a b c hab hbc => by
          simp only [bfLe, decide_eq_true_eq] at *
          omega)
        (fun a b => by
          simp only [bfLe, Bool.or_eq_true, decide_eq_true_eq]
          omega)
        (collectPages t r.pages)
      exact hp.imp (fun h => by
        simpa only [bfLe, decide_eq_true_eq] using h)

/-- Witness for C3 on the spec's backfill-boundary scenario. -/
theorem backfill_bound_sorted_skip_witness :
    bfRoomEx.lastTs = some 500 ∧
    (∀ e ∈ backfill_since_last_seen bfRoomEx, 500 < e.timestamp) :=
  ⟨rfl, ((backfill_bound_sorted_skip bfRoomEx).2 500 rfl).1⟩

theorem mset_self {α : Type} (m : String → Option α) (k : String) (v : α) :
    mset m k v k = some v := by
  simp [mset]

theorem mset_ne {α : Type} (m : String → Option α) (k : String) (v : α)
    (q : String) (h : q ≠ k) : mset m k v q = m q := by
  simp [mset, h]

/-- Claim C6 counterexample: processing a message whose event id is already
in the room's seen set does not leave the room's UI state unchanged — with
the room unselected and the timestamp newer than last-seen, the unread
counter is incremented before the dedup gate drops the message. -/
theorem duplicate_event_changes_unread_cex :
    "$e1" ∈ ((cexApp.seen_event_ids "!dup:x").getD []) ∧
    (cexApp.handle_incoming_message fmtTime0 fmtDate0 "!dup:x" (some "$e1") 5
      "@a:x" "hi").unread_counts "!dup:x" ≠ cexApp.unread_counts "!dup:x" := by
  decide

/-- Claim C6 (amended): processing an incoming message or attachment whose
event id is already in the room's seen set leaves the message list, the
last-message timestamp, the last-date marker and the seen sets unchanged and
drops the item, but the unread counter is not left unchanged in general: it
is incremented when the room is not selected and the event's timestamp
exceeds the room's last-seen timestamp, and reset to 0 when the room is
selected. -/
theorem duplicate_event_frame (fmtTime fmtDate : Int → String) (a : App)
    (room eid : String) (ts : Int) (sender body label filename path : String)
    (hdup : eid ∈ (a.seen_event_ids room).getD []) :
    DupFrameOk a
      (a.handle_incoming_message fmtTime fmtDate room (some eid) ts sender body)
      room ts ∧
    DupFrameOk a
      (a.handle_incoming_attachment fmtTime fmtDate room (some eid) ts sender
        label filename path) room ts := by
  have hpushm : ∀ b : App, b.seen_event_ids = a.seen_event_ids →
      b.push_message_with_time fmtTime fmtDate room (some eid) ts sender body
        = b := by
    intro b hb
    simp [App.push_message_with_time, hb, hdup]
  have hpusha : ∀ b : App, b.seen_event_ids = a.seen_event_ids →
      b.push_attachment_with_time fmtTime fmtDate room (some eid) ts sender
        label filename path = b := by
    intro b hb
    simp [App.push_attachment_with_time, hb, hdup]
  constructor
  · simp only [App.handle_incoming_message]
    by_cases hsel : a.selected_room_id = some room
    · have hcond : ¬(a.selected_room_id ≠ some room ∧
          (a.last_seen_ts room).getD 0 < ts) := fun h => h.1 hsel
      rw [if_neg hcond, hpushm a rfl, if_pos hsel]
      cases hlm : a.last_message_ts room with
      | some v =>
        simp only [App.mark_room_read, hlm]
        exact ⟨rfl, rfl, rfl, rfl,
          fun r hr => mset_ne _ _ _ _ hr,
          by rw [if_pos hsel]; exact mset_self _ _ _⟩
      | none =>
        simp only [App.mark_room_read, hlm]
        exact ⟨rfl, rfl, rfl, rfl,
          fun r hr => mset_ne _ _ _ _ hr,
          by rw [if_pos hsel]; exact mset_self _ _ _⟩
    · rw [if_neg hsel]
      by_cases hts : (a.last_seen_ts room).getD 0 < ts
      · have hb : App.push_message_with_time fmtTime fmtDate { a with unread_counts := mset a.unread_counts room ((a.unread_counts room).getD 0 + 1) } room (some eid) ts sender body = { a with unread_counts := mset a.unread_counts room ((a.unread_counts room).getD 0 + 1) } := hpushm _ rfl
        rw [if_pos ⟨hsel, hts⟩, hb]
        exact ⟨rfl, rfl, rfl, rfl,
          fun r hr => mset_ne _ _ _ _ hr,
          by rw [if_neg hsel, if_pos hts]; exact mset_self _ _ _⟩
      · have hcond : ¬(a.selected_room_id ≠ some room ∧
            (a.last_seen_ts room).getD 0 < ts) := fun h => hts h.2
        rw [if_neg hcond, hpushm a rfl]
        exact ⟨rfl, rfl, rfl, rfl, fun r _ => rfl,
          by rw [if_neg hsel, if_neg hts]⟩
  · simp only [App.handle_incoming_attachment]
    by_cases hsel : a.selected_room_id = some room
    · have hcond : ¬(a.selected_room_id ≠ some room ∧
          (a.last_seen_ts room).getD 0 < ts) := fun h => h.1 hsel
      rw [if_neg hcond, hpusha a rfl, if_pos hsel]
      cases hlm : a.last_message_ts room with
      | some v =>
        simp only [App.mark_room_read, hlm]
        exact ⟨rfl, rfl, rfl, rfl,
          fun r hr => mset_ne _ _ _ _ hr,
          by rw [if_pos hsel]; exact mset_self _ _ _⟩
      | none =>
        simp only [App.mark_room_read, hlm]
        exact ⟨rfl, rfl, rfl, rfl,
          fun r hr => mset_ne _ _ _ _ hr,
          by rw [if_pos hsel]; exact mset_self _ _ _⟩
    · rw [if_neg hsel]
      by_cases hts : (a.last_seen_ts room).getD 0 < ts
      · have hb : App.push_attachment_with_time fmtTime fmtDate { a with unread_counts := mset a.unread_counts room ((a.unread_counts room).getD 0 + 1) } room (some eid) ts sender label filename path = { a with unread_counts := mset a.unread_counts room ((a.unread_counts room).getD 0 + 1) } := hpusha _ rfl
        rw [if_pos ⟨hsel, hts⟩, hb]
        exact ⟨rfl, rfl, rfl, rfl,
          fun r hr => mset_ne _ _ _ _ hr,
          by rw [if_neg hsel, if_pos hts]; exact mset_self _ _ _⟩
      · have hcond : ¬(a.selected_room_id ≠ some room ∧
            (a.last_seen_ts room).getD 0 < ts) := fun h => hts h.2
        rw [if_neg hcond, hpusha a rfl]
        exact ⟨rfl, rfl, rfl, rfl, fun r _ => rfl,
          by rw [if_neg hsel, if_neg hts]⟩

/-- Witness for the amended C6 theorem at a concrete duplicate. -/
theorem duplicate_event_frame_witness :
    "$e1" ∈ ((cexApp.seen_event_ids "!dup:x").getD []) ∧
    DupFrameOk cexApp
      (cexApp.handle_incoming_message fmtTime0 fmtDate0 "!dup:x" (some "$e1")
        5 "@a:x" "hi") "!dup:x" 5 :=
  ⟨by decide,
   (duplicate_event_frame fmtTime0 fmtDate0 cexApp "!dup:x" "$e1" 5 "@a:x"
      "hi" "img" "f.png" "/tmp/f.png" (by decide)).1⟩

theorem sameShell_trans {a b c : App} (h1 : SameShell a b)
    (h2 : SameShell b c) : SameShell a c :=
  ⟨h2.1.trans h1.1, h2.2.1.trans h1.2.1, h2.2.2.1.trans h1.2.2.1,
   h2.2.2.2.trans h1.2.2.2⟩

theorem push_message_sameShell (fmtTime fmtDate : Int → String) (a : App)
    (room : String) (eid : Option String) (ts : Int) (sender body : String) :
    SameShell a
      (a.push_message_with_time fmtTime fmtDate room eid ts sender body) := by
  cases eid with
  | none => exact ⟨rfl, rfl, rfl, rfl⟩
  | some e =>
    by_cases h : e ∈ (a.seen_event_ids room).getD []
    · simp [App.push_message_with_time, h, SameShell]
    · simp [App.push_message_with_time, h, SameShell, App.push_item_body]

theorem push_attachment_sameShell (fmtTime fmtDate : Int → String) (a : App)
    (room : String) (eid : Option String) (ts : Int)
    (sender label filename path : String) :
    SameShell a
      (a.push_attachment_with_time fmtTime fmtDate room eid ts sender label
        filename path) := by
  cases eid with
  | none => exact ⟨rfl, rfl, rfl, rfl⟩
  | some e =>
    by_cases h : e ∈ (a.seen_event_ids room).getD []
    · simp [App.push_attachment_with_time, h, SameShell]
    · simp [App.push_attachment_with_time, h, SameShell, App.push_item_body]

theorem mark_room_read_sameShell (a : App) (room : String) :
    SameShell a (a.mark_room_read room) := by
  cases h : a.last_message_ts room <;>
    simp [App.mark_room_read, h, SameShell]

theorem handle_incoming_message_sameShell (fmtTime fmtDate : Int → String)
    (a : App) (room : String) (eid : Option String) (ts : Int)
    (sender body : String) :
    SameShell a
      (a.handle_incoming_message fmtTime fmtDate room eid ts sender body) := by
  simp only [App.handle_incoming_message]
  by_cases hcond : a.selected_room_id ≠ some room ∧
      (a.last_seen_ts room).getD 0 < ts
  · rw [if_pos hcond]
    have hbump : SameShell a { a with unread_counts := mset a.unread_counts room ((a.unread_counts room).getD 0 + 1) } :=
      ⟨rfl, rfl, rfl, rfl⟩
    by_cases hsel : a.selected_room_id = some room
    · rw [if_pos hsel]
      exact sameShell_trans
        (sameShell_trans hbump
          (push_message_sameShell fmtTime fmtDate _ room eid ts sender body))
        (mark_room_read_sameShell _ room)
    · rw [if_neg hsel]
      exact sameShell_trans hbump
        (push_message_sameShell fmtTime fmtDate _ room eid ts sender body)
  · rw [if_neg hcond]
    by_cases hsel : a.selected_room_id = some room
    · rw [if_pos hsel]
      exact sameShell_trans
        (push_message_sameShell fmtTime fmtDate a room eid ts sender body)
        (mark_room_read_sameShell _ room)
    · rw [if_neg hsel]
      exact push_message_sameShell fmtTime fmtDate a room eid ts sender body

theorem handle_incoming_attachment_sameShell (fmtTime fmtDate : Int → String)
    (a : App) (room : String) (eid : Option String) (ts : Int)
    (sender label filename path : String) :
    SameShell a
      (a.handle_incoming_attachment fmtTime fmtDate room eid ts sender label
        filename path) := by
  simp only [App.handle_incoming_attachment]
  by_cases hcond : a.selected_room_id ≠ some room ∧
      (a.last_seen_ts room).getD 0 < ts
  · rw [if_pos hcond]
    have hbump : SameShell a { a with unread_counts := mset a.unread_counts room ((a.unread_counts room).getD 0 + 1) } :=
      ⟨rfl, rfl, rfl, rfl⟩
    by_cases hsel : a.selected_room_id = some room
    · rw [if_pos hsel]
      exact sameShell_trans
        (sameShell_trans hbump
          (push_attachment_sameShell fmtTime fmtDate _ room eid ts sender
            label filename path))
        (mark_room_read_sameShell _ room)
    · rw [if_neg hsel]
      exact sameShell_trans hbump
        (push_attachment_sameShell fmtTime fmtDate _ room eid ts sender label
          filename path)
  · rw [if_neg hcond]
    by_cases hsel : a.selected_room_id = some room
    · rw [if_pos hsel]
      exact sameShell_trans
        (push_attachment_sameShell fmtTime fmtDate a room eid ts sender label
          filename path)
        (mark_room_read_sameShell _ room)
    · rw [if_neg hsel]
      exact push_attachment_sameShell fmtTime fmtDate a room eid ts sender
        label filename path

theorem foldl_touch_room_ready_own :
    ∀ (rs : List String) (a : App),
      (rs.foldl App.touch_room a).notifications_ready
          = a.notifications_ready ∧
      (rs.foldl App.touch_room a).own_user_id = a.own_user_id := by
  intro rs
  induction rs with
  | nil => intro a; exact ⟨rfl, rfl⟩
  | cons r rest ih =>
    intro a
    simp only [List.foldl_cons]
    exact ih (App.touch_room a r)

theorem update_rooms_ready_own (a : App) (rs : List String) :
    (a.update_rooms rs).notifications_ready = a.notifications_ready ∧
    (a.update_rooms rs).own_user_id = a.own_user_id := by
  simp only [App.update_rooms]
  cases hsel : App.selected_room_id
      { rs.foldl App.touch_room a with
          rooms := rs, selected := 0, is_syncing := false } with
  | none =>
    simp only [hsel]
    exact foldl_touch_room_ready_own rs a
  | some room =>
    simp only [hsel]
    have hm := mark_room_read_sameShell
      { rs.foldl App.touch_room a with
          rooms := rs, selected := 0, is_syncing := false } room
    have hf := foldl_touch_room_ready_own rs a
    exact ⟨hm.2.2.1.trans hf.1, hm.2.2.2.trans hf.2⟩

theorem stepEvent_ready_own (fmtTime fmtDate : Int → String) (a : App)
    (e : MatrixEvent) :
    (stepEvent fmtTime fmtDate a e).1.notifications_ready
        = (a.notifications_ready || e.isBackfillDone) ∧
    (stepEvent fmtTime fmtDate a e).1.own_user_id = a.own_user_id := by
  cases e with
  | rooms rs =>
    have h := update_rooms_ready_own a rs
    simp [stepEvent, MatrixEvent.isBackfillDone, h.1, h.2]
  | message room eid sender body ts rt =>
    have h := handle_incoming_message_sameShell fmtTime fmtDate a room
      (some eid) ts sender body
    simp [stepEvent, MatrixEvent.isBackfillDone, h.2.2.1, h.2.2.2]
  | attachment room eid sender name path kind ts rt =>
    have h := handle_incoming_attachment_sameShell fmtTime fmtDate a room
      (some eid) ts sender kind name path
    simp [stepEvent, MatrixEvent.isBackfillDone, h.2.2.1, h.2.2.2]
  | receipt room eid => simp [stepEvent, MatrixEvent.isBackfillDone]
  | backfillDone => simp [stepEvent, MatrixEvent.isBackfillDone]
  | verificationStatus s => simp [stepEvent, MatrixEvent.isBackfillDone]
  | verificationEmojis es => simp [stepEvent, MatrixEvent.isBackfillDone]
  | verificationDone => simp [stepEvent, MatrixEvent.isBackfillDone]
  | verificationCancelled r => simp [stepEvent, MatrixEvent.isBackfillDone]

theorem runEvents_ready_own (fmtTime fmtDate : Int → String) :
    ∀ (evts : List MatrixEvent) (a : App),
      (runEvents fmtTime fmtDate a evts).1.notifications_ready
          = (a.notifications_ready || evts.any MatrixEvent.isBackfillDone) ∧
      (runEvents fmtTime fmtDate a evts).1.own_user_id = a.own_user_id := by
  intro evts
  induction evts with
  | nil => intro a; simp [runEvents]
  | cons e rest ih =>
    intro a
    simp only [runEvents]
    have hstep := stepEvent_ready_own fmtTime fmtDate a e
    have hrec := ih (stepEvent fmtTime fmtDate a e).1
    refine ⟨?_, hrec.2.trans hstep.2⟩
    rw [hrec.1, hstep.1, List.any_cons]
    cases a.notifications_ready <;> cases e.isBackfillDone <;> simp

theorem any_isBackfillDone_iff (l : List MatrixEvent) :
    l.any MatrixEvent.isBackfillDone = true ↔ MatrixEvent.backfillDone ∈ l := by
  rw [List.any_eq_true]
  constructor
  · rintro ⟨x, hx, hbd⟩
    cases x <;> simp [MatrixEvent.isBackfillDone] at hbd
    exact hx
  · intro h
    exact ⟨MatrixEvent.backfillDone, h, rfl⟩

theorem should_notify_congr (a b : App) (h : SameShell a b)
    (room sender : String) :
    b.should_notify room sender = a.should_notify room sender := by
  obtain ⟨h1, h2, h3, h4⟩ := h
  simp [App.should_notify, App.selected_room_id, h1, h2, h3, h4]

theorem should_notify_ready (a : App) (room sender : String)
    (h : a.should_notify room sender = true) :
    a.notifications_ready = true := by
  cases hb : a.notifications_ready with
  | true => rfl
  | false => simp [App.should_notify, hb] at h

theorem should_notify_iff (a : App) (room sender u : String)
    (hu : a.own_user_id = some u) :
    a.should_notify room sender = true ↔
      (a.notifications_ready = true ∧ a.selected_room_id ≠ some room ∧
        sender ≠ u) := by
  cases hb : a.notifications_ready with
  | false => simp [App.should_notify, hb]
  | true =>
    by_cases hsel : a.selected_room_id = some room
    · simp [App.should_notify, hb, hsel]
    · by_cases hsend : sender = u
      · simp [App.should_notify, hb, hsel, hu, hsend]
      · simp [App.should_notify, hb, hsel, hu, hsend]

theorem notif_ite_ne_nil (b : Bool) (x : String × String) :
    ((if b = true then [x] else []) ≠ []) ↔ b = true := by
  cases b <;> simp

/-- Claim C7: in every run of the event-drain loop started with the
notification gate disarmed (as `run_app` does), no event processed before a
`BackfillDone` emits a notification; and once `BackfillDone` has been
processed, an incoming message or attachment emits a notification exactly
when its room is not the currently selected room and its sender is not the
logged-in user. -/
theorem run_app_notification_gating (fmtTime fmtDate : Int → String)
    (a0 : App) (h0 : a0.notifications_ready = false)
    (history : List MatrixEvent) :
    (∀ e : MatrixEvent,
      (stepEvent fmtTime fmtDate (runEvents fmtTime fmtDate a0 history).1 e).2
          ≠ [] →
      MatrixEvent.backfillDone ∈ history) ∧
    (∀ room eid sender body ts rt u, a0.own_user_id = some u →
      ((stepEvent fmtTime fmtDate (runEvents fmtTime fmtDate a0 history).1
          (.message room eid sender body ts rt)).2 ≠ [] ↔
        (MatrixEvent.backfillDone ∈ history ∧
          (runEvents fmtTime fmtDate a0 history).1.selected_room_id
            ≠ some room ∧
          sender ≠ u))) ∧
    (∀ room eid sender name path kind ts rt u, a0.own_user_id = some u →
      ((stepEvent fmtTime fmtDate (runEvents fmtTime fmtDate a0 history).1
          (.attachment room eid sender name path kind ts rt)).2 ≠ [] ↔
        (MatrixEvent.backfillDone ∈ history ∧
          (runEvents fmtTime fmtDate a0 history).1.selected_room_id
            ≠ some room ∧
          sender ≠ u))) := by
  set A := (runEvents fmtTime fmtDate a0 history).1 with hA
  have hro := runEvents_ready_own fmtTime fmtDate history a0
  have hready : A.notifications_ready = true ↔
      MatrixEvent.backfillDone ∈ history := by
    rw [hA, hro.1, h0, Bool.false_or]
    exact any_isBackfillDone_iff history
  refine ⟨?_, ?_, ?_⟩
  · intro e hne
    cases e with
    | message room eid sender body ts rt =>
      have hsh := handle_incoming_message_sameShell fmtTime fmtDate A room
        (some eid) ts sender body
      have hne2 : (if (A.handle_incoming_message fmtTime fmtDate room
          (some eid) ts sender body).should_notify room sender = true then
            [(room, sender)] else []) ≠ [] := hne
      rw [notif_ite_ne_nil, should_notify_congr A _ hsh] at hne2
      exact hready.mp (should_notify_ready A room sender hne2)
    | attachment room eid sender name path kind ts rt =>
      have hsh := handle_incoming_attachment_sameShell fmtTime fmtDate A room
        (some eid) ts sender kind name path
      have hne2 : (if (A.handle_incoming_attachment fmtTime fmtDate room
          (some eid) ts sender kind name path).should_notify room sender
            = true then [(room, sender)] else []) ≠ [] := hne
      rw [notif_ite_ne_nil, should_notify_congr A _ hsh] at hne2
      exact hready.mp (should_notify_ready A room sender hne2)
    | rooms rs => exact absurd rfl hne
    | receipt room eid => exact absurd rfl hne
    | backfillDone => exact absurd rfl hne
    | verificationStatus s => exact absurd rfl hne
    | verificationEmojis es => exact absurd rfl hne
    | verificationDone => exact absurd rfl hne
    | verificationCancelled r => exact absurd rfl hne
  · intro room eid sender body ts rt u hu
    have hAu : A.own_user_id = some u := by rw [hA, hro.2]; exact hu
    have hsh := handle_incoming_message_sameShell fmtTime fmtDate A room
      (some eid) ts sender body
    have hcongr := should_notify_congr A _ hsh room sender
    constructor
    · intro hne
      have hne2 : (if (A.handle_incoming_message fmtTime fmtDate room
          (some eid) ts sender body).should_notify room sender = true then
            [(room, sender)] else []) ≠ [] := hne
      rw [notif_ite_ne_nil, hcongr,
        should_notify_iff A room sender u hAu] at hne2
      exact ⟨hready.mp hne2.1, hne2.2.1, hne2.2.2⟩
    · intro hr
      have htrue : (A.handle_incoming_message fmtTime fmtDate room (some eid)
          ts sender body).should_notify room sender = true := by
        rw [hcongr, should_notify_iff A room sender u hAu]
        exact ⟨hready.mpr hr.1, hr.2.1, hr.2.2⟩
      have hstep : (stepEvent fmtTime fmtDate A
          (.message room eid sender body ts rt)).2 = [(room, sender)] := by
        simp only [stepEvent, htrue, if_true]
      rw [hstep]
      simp
  · intro room eid sender name path kind ts rt u hu
    have hAu : A.own_user_id = some u := by rw [hA, hro.2]; exact hu
    have hsh := handle_incoming_attachment_sameShell fmtTime fmtDate A room
      (some eid) ts sender kind name path
    have hcongr := should_notify_congr A _ hsh room sender
    constructor
    · intro hne
      have hne2 : (if (A.handle_incoming_attachment fmtTime fmtDate room
          (some eid) ts sender kind name path).should_notify room sender
            = true then [(room, sender)] else []) ≠ [] := hne
      rw [notif_ite_ne_nil, hcongr,
        should_notify_iff A room sender u hAu] at hne2
      exact ⟨hready.mp hne2.1, hne2.2.1, hne2.2.2⟩
    · intro hr
      have htrue : (A.handle_incoming_attachment fmtTime fmtDate room
          (some eid) ts sender kind name path).should_notify room sender
            = true := by
        rw [hcongr, should_notify_iff A room sender u hAu]
        exact ⟨hready.mpr hr.1, hr.2.1, hr.2.2⟩
      have hstep : (stepEvent fmtTime fmtDate A
          (.attachment room eid sender name path kind ts rt)).2
            = [(room, sender)] := by
        simp only [stepEvent, htrue, if_true]
      rw [hstep]
      simp

/-- Witness for C7: after a history consisting of `BackfillDone`, a message
from another user in an unselected room does emit a notification. -/
theorem run_app_notification_gating_witness :
    ({ App.new with own_user_id := some "@me:x" } : App).notifications_ready
        = false ∧
    (stepEvent fmtTime0 fmtDate0
      (runEvents fmtTime0 fmtDate0
        { App.new with own_user_id := some "@me:x" }
        [MatrixEvent.backfillDone]).1
      (.message "!r:x" "$e9" "@alice:x" "hi" 5 none)).2 ≠ [] := by
  refine ⟨rfl, ?_⟩
  exact ((run_app_notification_gating fmtTime0 fmtDate0
      { App.new with own_user_id := some "@me:x" } rfl
      [MatrixEvent.backfillDone]).2.1 "!r:x" "$e9" "@alice:x" "hi" 5 none
      "@me:x" rfl).mpr
    ⟨by simp, by decide, by decide⟩
